import Mathlib

/-!
Verification of the oddsmate-backend scraping toolkit's normalization and
reconciliation logic.  Python functions are shallowly embedded over
`List Char` (Python `str`), `Int` (Python `int`), and `ℚ` (Python floats,
modeled exactly).  External library functions (`fuzzywuzzy.fuzz.token_set_ratio`,
`unidecode`, `float` parsing inside `process_stat_value`) are taken as explicit
function parameters; everything else is translated from the repository source.
-/

namespace OddsMate

/-! ### Python string primitives -/

/-- ASCII whitespace characters stripped by Python `str.strip()` and matched by
regex `\s` (the repository only ever feeds ASCII page text through these). -/
def isWS (c : Char) : Bool :=
  c = ' ' || c = '\t' || c = '\n' || c = '\r' || c = '\x0b' || c = '\x0c'

/-- Python `str.strip()`: remove leading and trailing whitespace. -/
def pyStrip (l : List Char) : List Char :=
  ((l.dropWhile isWS).reverse.dropWhile isWS).reverse

/-- Numeric value of an ASCII digit character. -/
def digitVal (c : Char) : Nat := c.toNat - 48

/-- Value of a list of ASCII digit characters read in base 10. -/
def natOfDigits (l : List Char) : Nat :=
  l.foldl (fun a c => a * 10 + digitVal c) 0

/-- Tail of Python's integer-literal grammar after the first digit:
`(digit | '_' digit)*`, accumulating the value (underscores must sit between
digits, as `int()` accepts). -/
def pyDigitsGo (a : Nat) : List Char → Option Nat
  | [] => some a
  | c :: cs =>
    if c.isDigit then pyDigitsGo (a * 10 + digitVal c) cs
    else if c = '_' then
      match cs with
      | d :: ds => if d.isDigit then pyDigitsGo (a * 10 + digitVal d) ds else none
      | [] => none
    else none

/-- Python unsigned decimal integer body: nonempty digits with optional single
underscores between digits. -/
def pyDigits : List Char → Option Nat
  | [] => none
  | c :: cs => if c.isDigit then pyDigitsGo (digitVal c) cs else none

/-- Python `int(s)` on a string: strip whitespace, optional sign, decimal
digits; `none` models the `ValueError` raised on anything else. -/
def pyInt (l : List Char) : Option Int :=
  match pyStrip l with
  | '+' :: r => (pyDigits r).map Int.ofNat
  | '-' :: r => (pyDigits r).map (fun n => -(n : Int))
  | r => (pyDigits r).map Int.ofNat

/-- Does `hay` start with `needle`? -/
def leadsWith : List Char → List Char → Bool
  | [], _ => true
  | _ :: _, [] => false
  | a :: as1, b :: bs => a = b && leadsWith as1 bs

/-- Python `needle in hay` substring test. -/
def hasSub (needle : List Char) : List Char → Bool
  | [] => leadsWith needle []
  | c :: cs => leadsWith needle (c :: cs) || hasSub needle cs

/-- Python `s.split(sep)` for a single-character separator. -/
def splitChar (sep : Char) : List Char → List (List Char)
  | [] => [[]]
  | c :: cs =>
    if c = sep then [] :: splitChar sep cs
    else
      match splitChar sep cs with
      | [] => [[c]]
      | h :: t => (c :: h) :: t

/-- Fuel-driven worker for multi-character `str.split`; `fuel` bounds the scan
(callers pass the length of the haystack, which always suffices). -/
def splitSubGo (sep : List Char) : Nat → List Char → List (List Char)
  | _, [] => [[]]
  | 0, hay => [hay]
  | fuel + 1, c :: cs =>
    if leadsWith sep (c :: cs) then
      [] :: splitSubGo sep fuel ((c :: cs).drop sep.length)
    else
      match splitSubGo sep fuel cs with
      | [] => [[c]]
      | h :: t => (c :: h) :: t

/-- Python `s.split(sep)` for a nonempty multi-character separator. -/
def splitSub (sep l : List Char) : List (List Char) :=
  splitSubGo sep l.length l

/-! ### Value normalizer: `american_to_decimal`
(src/odds_scraping/pre_2020_closing.py, lines 47–63)

The argument is the result of Python's `float(odds)` call: `some x` when the
input parses to the number `x`, `none` when `float` raises (the unparseable
case). -/

/-- Embeds `american_to_decimal`: positive American odds map to `x/100 + 1`,
negative to `100/|x| + 1`, zero to `1.0`, and unparseable input to `None`. -/
def americanToDecimal (x? : Option ℚ) : Option ℚ :=
  match x? with
  | none => none
  | some x =>
    if 0 < x then some (x / 100 + 1)
    else if x < 0 then some (100 / |x| + 1)
    else some 1

/-! ### Value normalizer: `process_stat_value` (src/scrape_round.py, lines 6–46) -/

/-- Python value returned by `process_stat_value`: an `int`, a `float`, a
`{"landed": int, "attempted": int}` dict, the same dict with both parts left as
strings (the `ValueError` fallback inside the `" of "` branch), the original
string, or `None` (never actually produced by the code; kept so the spec's
claimed `null` results are expressible). -/
inductive StatValue
  | intVal : Int → StatValue
  | floatVal : ℚ → StatValue
  | pairInts : Int → Int → StatValue
  | pairStrs : List Char → List Char → StatValue
  | strVal : List Char → StatValue
  | noneVal : StatValue
deriving DecidableEq, Repr

/-- The `elif ':' in stat_value:` branch body of `process_stat_value`:
`minutes, seconds = stat_value.split(':')` then `int(minutes)*60+int(seconds)`;
`none` models the caught `Exception` (wrong part count or failed `int`). -/
def clockBranch (s : List Char) : Option Int :=
  match splitChar ':' s with
  | [mm, ss] =>
    match pyInt mm, pyInt ss with
    | some m, some sec => some (m * 60 + sec)
    | _, _ => none
  | _ => none

/-- Embeds `process_stat_value`.  `pyFloat` stands for Python's builtin `float`
string parser (external to the repository), with `none` for `ValueError`.
Mirrors the source order: `'---'` is first rewritten to `'0'`, then the
`" of "` pair branch, the `':'` clock branch, the `'%'` percentage branch, and
finally plain `int` conversion; every failed conversion returns the (possibly
rewritten) input string. -/
def processStatValue (pyFloat : List Char → Option ℚ) (sv : List Char) : StatValue :=
  let s := if sv = "---".data then "0".data else sv
  if hasSub " of ".data s then
    let parts := splitSub " of ".data s
    let p0 := parts.getD 0 []
    let p1 := parts.getD 1 []
    match pyInt p0, pyInt p1 with
    | some a, some b => .pairInts a b
    | _, _ => .pairStrs p0 p1
  else if s.contains ':' then
    match clockBranch s with
    | some v => .intVal v
    | none => .strVal s
  else if s.contains '%' then
    match pyFloat (s.filter (fun c => c ≠ '%')) with
    | some q => .floatVal q
    | none => .strVal s
  else
    match pyInt s with
    | some n => .intVal n
    | none => .strVal s

example : processStatValue (fun _ => none) "2:30".data = .intVal 150 := by decide
example : processStatValue (fun _ => none) "0:00".data = .intVal 0 := by decide
example : processStatValue (fun _ => none) "bad".data = .strVal "bad".data := by decide
example : processStatValue (fun _ => none) "---".data = .intVal 0 := by decide
example : processStatValue (fun _ => none) "12 of 34".data = .pairInts 12 34 := by decide
example : americanToDecimal (some 150) = some (5 / 2) := by norm_num [americanToDecimal]

/-! ### Final fight-result parsing (`get_final_score`, src/live_python.py
lines 32–94 — the identical copy in src/espn_scraper.py lines 271–333 is not
re-embedded).

The regex
`^Final(?P<method>(?:KO\/TKO|S Dec|U Dec|Sub|No Contest))R(?P<round>\d+),\s*(?P<time>\d+:\d+)$`
is translated to a direct parser.  No method alternative is a prefix of
another, so first-match alternation agrees with the regex, and each `\d+` is
followed by a non-digit (`,`, `:`, or end of input), so greedy digit runs need
no backtracking. -/

/-- The regex method alternatives, in source order. -/
def finalMethods : List (List Char) :=
  ["KO/TKO".data, "S Dec".data, "U Dec".data, "Sub".data, "No Contest".data]

/-- First method alternative that is a prefix of `l`, with the rest of `l`. -/
def findMethod : List (List Char) → List Char → Option (List Char × List Char)
  | [], _ => none
  | m :: ms, l =>
    if leadsWith m l then some (m, l.drop m.length) else findMethod ms l

/-- Matches `R(?P<round>\d+),\s*(?P<time>\d+:\d+)$`, returning the round digit
group and the time text. -/
def parseRoundTime (l : List Char) : Option (List Char × List Char) :=
  match l with
  | 'R' :: rest =>
    let ds := rest.takeWhile Char.isDigit
    let r1 := rest.dropWhile Char.isDigit
    if ds = [] then none
    else
      match r1 with
      | ',' :: r2 =>
        let r3 := r2.dropWhile isWS
        let mm := r3.takeWhile Char.isDigit
        let r4 := r3.dropWhile Char.isDigit
        if mm = [] then none
        else
          match r4 with
          | ':' :: r5 =>
            if r5 ≠ [] ∧ r5.all Char.isDigit then some (ds, mm ++ ':' :: r5)
            else none
          | _ => none
      | _ => none
  | _ => none

/-- The full `Final…` regex on an (already stripped) string: returns
`(method, "R" ++ round, time)` exactly as `parse_fight_result` builds its
match tuple. -/
def parseFinalPattern (t : List Char) : Option (List Char × List Char × List Char) :=
  if leadsWith "Final".data t then
    match findMethod finalMethods (t.drop 5) with
    | some (m, rest) =>
      match parseRoundTime rest with
      | some (ds, time) => some (m, 'R' :: ds, time)
      | none => none
    | none => none
  else none

/-- Timestamp computation of `get_final_score` / `get_curr_score`:
`round_index = int(round_num[1]) - 1`, `mins, secs = map(int, fight_time.split(':'))`,
`timestamp = round_index * 5 * 60 + mins * 60 + secs`.  Note the source reads
only `round_num[1]`, the FIRST digit of the round number.  `none` models the
caught `ValueError` (and the `if round_num and fight_time` guard leaving the
timestamp unset). -/
def pyTimestamp (roundStr timeStr : List Char) : Option Int :=
  if roundStr = [] ∨ timeStr = [] then none
  else
    match roundStr.drop 1 with
    | [] => none
    | d :: _ =>
      match pyInt [d], splitChar ':' timeStr with
      | some n, [mm, ss] =>
        match pyInt mm, pyInt ss with
        | some mv, some sv => some ((n - 1) * 5 * 60 + mv * 60 + sv)
        | _, _ => none
      | _, _ => none

/-- Record written by `get_final_score` into `fight_info` (a `timestamp` key
left unset is modeled as `none`). -/
structure FinalScore where
  method : Option (List Char)
  round : Option (List Char)
  time : Option (List Char)
  timestamp : Option Int
deriving DecidableEq, Repr

/-- Embeds `get_final_score`: the argument is the text of the first matched
score `div` (`none` when `fight_score` is empty).  The inner
`parse_fight_result` strips the text and applies the `Final…` regex; the
timestamp is then derived from the round and time strings. -/
def getFinalScore (scoreText : Option (List Char)) : FinalScore :=
  match scoreText with
  | none => ⟨none, none, none, none⟩
  | some s =>
    match parseFinalPattern (pyStrip s) with
    | none => ⟨none, none, none, none⟩
    | some (m, r, ti) => ⟨some m, some r, some ti, pyTimestamp r ti⟩

example :
    getFinalScore (some "FinalKO/TKOR3, 2:30".data) =
      ⟨some "KO/TKO".data, some "R3".data, some "2:30".data, some 750⟩ := by decide
example :
    getFinalScore (some "FinalKO/TKOR10, 2:30".data) =
      ⟨some "KO/TKO".data, some "R10".data, some "2:30".data, some 150⟩ := by decide
example : getFinalScore (some "Invalid format".data) = ⟨none, none, none, none⟩ := by decide
example :
    getFinalScore (some "FinalU Dec R5, 5:00".data) = ⟨none, none, none, none⟩ := by decide

/-! ### Live fight-result parsing (`get_curr_score`,
src/espn_scraper.py lines 599–695).

The live regex is `^(?:END\s+)?R(?P<round>\d+)(?:,\s*(?P<time>\d+:\d+))?$`.
The optional `END\s+` group and the bare-`R` start are disjoint on their first
character, and every `\d+` is followed by a non-digit, so the direct parser
below agrees with the backtracking regex. -/

/-- Matches the live pattern on an (already stripped) string: round digit
group plus optional time text. -/
def parseLivePattern (t : List Char) : Option (List Char × Option (List Char)) :=
  let t1 :=
    if leadsWith "END".data t ∧ (t.drop 3).takeWhile isWS ≠ [] then
      (t.drop 3).dropWhile isWS
    else t
  match t1 with
  | 'R' :: rest =>
    let ds := rest.takeWhile Char.isDigit
    let r1 := rest.dropWhile Char.isDigit
    if ds = [] then none
    else
      match r1 with
      | [] => some (ds, none)
      | ',' :: r2 =>
        let r3 := r2.dropWhile isWS
        let mm := r3.takeWhile Char.isDigit
        let r4 := r3.dropWhile Char.isDigit
        if mm = [] then none
        else
          match r4 with
          | ':' :: r5 =>
            if r5 ≠ [] ∧ r5.all Char.isDigit then some (ds, some (mm ++ ':' :: r5))
            else none
          | _ => none
      | _ => none
  | _ => none

/-- The lifecycle-tag test of `get_curr_score`'s `parse_fight_result`:
`result_str.upper()` equals `"PRE-FIGHT"`, `"WALKOUTS"` or `"INTROS"`. -/
def liveTag (u : List Char) : Bool :=
  u = "PRE-FIGHT".data || u = "WALKOUTS".data || u = "INTROS".data

/-- Embeds `parse_fight_result` inside `get_curr_score`: strip, return an
uppercased lifecycle tag as the method, else try the `Final…` grammar when the
text starts with `Final`, else the live grammar, else `(None, None, None)`. -/
def parseLiveResult (s : List Char) :
    Option (List Char) × Option (List Char) × Option (List Char) :=
  let t := pyStrip s
  let u := t.map Char.toUpper
  if liveTag u then (some u, none, none)
  else if leadsWith "Final".data t then
    match parseFinalPattern t with
    | some (m, r, ti) => (some m, some r, some ti)
    | none => (none, none, none)
  else
    match parseLivePattern t with
    | some (ds, ti?) => (none, some ('R' :: ds), ti?)
    | none => (none, none, none)

example : parseLiveResult "END R2".data = (none, some "R2".data, none) := by decide
example : parseLiveResult "R3, 4:34".data = (none, some "R3".data, some "4:34".data) := by
  decide
example : parseLiveResult "PRE-FIGHT".data = (some "PRE-FIGHT".data, none, none) := by decide
example : parseLiveResult "nonsense".data = (none, none, none) := by decide
example :
    parseLiveResult "FinalKO/TKOR3, 2:30".data =
      (some "KO/TKO".data, some "R3".data, some "2:30".data) := by decide

/-! ### Fighter-name extraction (`get_fighter_names`, src/live_python.py
lines 7–29; the method in src/espn_scraper.py lines 246–269 is identical).

The input is the list of texts of the matched
`<span class="truncate tc db">` elements.  The body indexes `fighters[0]` and
`fighters[1]` unconditionally, so fewer than two elements raise `IndexError`
(modeled by `Except.error`), aborting the page's extraction. -/

inductive PyExc
  | indexError
deriving DecidableEq, Repr

/-- Embeds `get_fighter_names`: sets the `fighter1`/`fighter2` keys from the
first two matched name spans, raising `IndexError` when fewer than two exist. -/
def getFighterNames (names : List (List Char)) : Except PyExc (List Char × List Char) :=
  match names with
  | a :: b :: _ => .ok (a, b)
  | _ => .error .indexError

/-! ### Judge scorecard extraction

`AsyncJudgeScraper.parse_fight` (src/judges_scraping/fast_scrape_judges.py,
lines 37–125) and `SyncJudgeScraper.parse_fight`
(src/scrapers/judges_scraping/utils/scrape_judges.py, lines 17–114) contain
byte-for-byte identical extraction logic; the page is modeled by the texts the
DOM queries return, fetching by an oracle `String → Option FightPage` (`none`
for a failed or non-200 fetch), and `unidecode` by a parameter `uni`. -/

/-- One `<table style="border-spacing: 1px; width: 100%">` judge table: the
stripped text of its `td.judge` cell if present, the cell texts of each
`tr.decision` round row, and the cell texts of its `tr.bottom-row` if present. -/
structure JudgeTable where
  judgeCell : Option (List Char)
  roundRows : List (List (List Char))
  totalRow : Option (List (List Char))
deriving DecidableEq

/-- A parsed fight page: per `td.decision-top`/`td.decision-bottom` cell the
text of its `<a>` tag if one exists, and the judge tables in document order. -/
structure FightPage where
  fighterCells : List (Option (List Char))
  judgesTables : List JudgeTable
deriving DecidableEq

/-- One emitted per-round score entry (`{"round": …, "fighter1": …, "fighter2": …}`). -/
structure RoundScore where
  round : List Char
  fighter1 : Int
  fighter2 : Int
deriving DecidableEq

/-- One entry of the `judges_results` dict: the key index of `f"Judge{idx}"`,
the judge's name, the rounds list, and the totals pair (`none` for `{}`). -/
structure JudgeCard where
  idx : Nat
  judgeName : List Char
  rounds : List RoundScore
  total : Option (Int × Int)
deriving DecidableEq

/-- The final `fight_data` dict of `parse_fight`. -/
structure FightData where
  fightUrl : List Char
  fighter1 : List Char
  fighter2 : List Char
  judges : List JudgeCard
deriving DecidableEq

/-- Round-row loop body shared verbatim by both `parse_fight` versions: skip
rows with fewer than 3 cells, skip rows whose score cells hold the `"-"`
placeholder, skip rows whose scores fail `int()`, and otherwise emit the
round entry. -/
def parseRoundRow (cells : List (List Char)) : Option RoundScore :=
  match cells with
  | c0 :: c1 :: c2 :: _ =>
    if c1 = "-".data ∨ c2 = "-".data then none
    else
      match pyInt c1, pyInt c2 with
      | some a, some b => some ⟨c0, a, b⟩
      | _, _ => none
  | _ => none

/-- The `rounds_data` list built from a table's round rows. -/
def parseRounds (rows : List (List (List Char))) : List RoundScore :=
  rows.filterMap parseRoundRow

/-- The totals extraction shared by both `parse_fight` versions: `{}` (here
`none`) unless a `tr.bottom-row` exists with at least 3 cells and both total
cells parse as `int`. -/
def parseTotals (row? : Option (List (List Char))) : Option (Int × Int) :=
  match row? with
  | none => none
  | some cells =>
    match cells with
    | _ :: c1 :: c2 :: _ =>
      match pyInt c1, pyInt c2 with
      | some a, some b => some (a, b)
      | _, _ => none
    | _ => none

/-- Per-table loop body shared by both `parse_fight` versions: `continue` when
the `td.judge` cell is missing, else build the judge entry; the name is the
part of the cell text before the first newline, run through `unidecode`. -/
def parseJudgeTable (uni : List Char → List Char) (i : Nat) (t : JudgeTable) :
    Option JudgeCard :=
  match t.judgeCell with
  | none => none
  | some txt =>
    some ⟨i, uni ((splitChar '\n' txt).getD 0 []), parseRounds t.roundRows,
      parseTotals t.totalRow⟩

/-- Embeds `AsyncJudgeScraper.parse_fight`: fetch the page (`none` on fetch
failure), extract the first two fighter names (empty strings when fewer than
two are found), fail with `None` when fewer than 3 judge tables exist, and
build the judge entries from the first 3 tables with 1-based indices. -/
def asyncParseFight (uni : List Char → List Char) (fetch : List Char → Option FightPage)
    (url : List Char) : Option FightData :=
  match fetch url with
  | none => none
  | some page =>
    let names := (page.fighterCells.filterMap id).map uni
    let f1 := if 2 ≤ names.length then names.getD 0 [] else []
    let f2 := if 2 ≤ names.length then names.getD 1 [] else []
    if page.judgesTables.length < 3 then none
    else
      some ⟨url, f1, f2,
        ((page.judgesTables.take 3).enum.map
            (fun p => parseJudgeTable uni (p.1 + 1) p.2)).filterMap id⟩

/-- Embeds `SyncJudgeScraper.parse_fight`, whose body is identical to the
async version's (the sync file fetches with `requests`, the async one with a
headless browser; both are the same `fetch` oracle here). -/
def syncParseFight (uni : List Char → List Char) (fetch : List Char → Option FightPage)
    (url : List Char) : Option FightData :=
  match fetch url with
  | none => none
  | some page =>
    let names := (page.fighterCells.filterMap id).map uni
    let f1 := if 2 ≤ names.length then names.getD 0 [] else []
    let f2 := if 2 ≤ names.length then names.getD 1 [] else []
    if page.judgesTables.length < 3 then none
    else
      some ⟨url, f1, f2,
        ((page.judgesTables.take 3).enum.map
            (fun p => parseJudgeTable uni (p.1 + 1) p.2)).filterMap id⟩

/-- The `fights` list of `AsyncJudgeScraper.parse_event` (lines 226–229):
one `parse_fight` task per fight link, `asyncio.gather` preserving task order,
then `[f for f in fights_data if f is not None]`. -/
def asyncEventFights (uni : List Char → List Char) (fetch : List Char → Option FightPage)
    (links : List (List Char)) : List FightData :=
  (links.map (asyncParseFight uni fetch)).filterMap id

/-- The `fights_data` list of `SyncJudgeScraper.parse_event` (lines 237–241):
a sequential loop appending each non-`None` `parse_fight` result. -/
def syncEventFights (uni : List Char → List Char) (fetch : List Char → Option FightPage)
    (links : List (List Char)) : List FightData :=
  (links.map (syncParseFight uni fetch)).filterMap id

/-! ### Fuzzy event matcher
(`add_ufcstats_event_ids_to_judges_json`,
src/scrapers/judges_scraping/utils/match_judges_db.py, lines 85–113; the same
selection loop appears in `SyncJudgeScraper.parse_event` lines 253–267 and
`AsyncJudgeScraper.parse_event` lines 242–250).

Dates are calendar day numbers (`datetime` subtraction of two midnight dates
yields exact days); a candidate's `date` is `none` when
`datetime.strptime(j_event["event_details"]["date"], "%d/%m/%Y")` raises.  The
similarity `sim` stands for `fuzz.token_set_ratio`, an external library
function returning a `Nat` score. -/

/-- One source-B candidate (`j_event`): its parsed date if parseable, its
location text, and an identifying payload for the rest of the record. -/
structure MatchCand where
  date : Option Int
  location : List Char
  payload : List Char
deriving DecidableEq

/-- Loop body of the matcher over `(best_score, best_match)`: skip candidates
with unparseable dates, skip candidates more than 1 day away, and replace the
best on a strictly greater location-similarity score. -/
def matchStep (sim : List Char → List Char → Nat) (uDate : Int) (uLoc : List Char)
    (st : Int × Option MatchCand) (j : MatchCand) : Int × Option MatchCand :=
  match j.date with
  | none => st
  | some d =>
    if (uDate - d).natAbs ≤ 1 then
      if (sim uLoc j.location : Int) > st.1 then ((sim uLoc j.location : Int), some j)
      else st
    else st

/-- Embeds the matcher's candidate scan: fold the loop body from
`best_score = -1`, `best_match = None` and return the final `best_match`. -/
def findBestMatch (sim : List Char → List Char → Nat) (uDate : Int) (uLoc : List Char)
    (cands : List MatchCand) : Option MatchCand :=
  (cands.foldl (matchStep sim uDate uLoc) (-1, none)).2

/-- Date filter of the matcher: a candidate survives when its date parses and
is within 1 day of the source-A date. -/
def survives (uDate : Int) (j : MatchCand) : Bool :=
  match j.date with
  | some d => decide ((uDate - d).natAbs ≤ 1)
  | none => false

/-- Specification-side selector: the first element of the list attaining the
maximal score (`none` on the empty list). -/
def firstMaxRec {α : Type} (f : α → Nat) : List α → Option α
  | [] => none
  | x :: xs =>
    match firstMaxRec f xs with
    | none => some x
    | some y => if (f x : Int) < (f y : Int) then some y else some x

/-- Score-only loop body: what `matchStep` does to a surviving candidate. -/
def scanStep {α : Type} (f : α → Nat) (st : Int × Option α) (x : α) : Int × Option α :=
  if (f x : Int) > st.1 then ((f x : Int), some x) else st

/-! ### Helper lemmas for the matcher -/

theorem foldl_matchStep_eq_filter (sim : List Char → List Char → Nat) (uD : Int)
    (uLoc : List Char) :
    ∀ (l : List MatchCand) (st : Int × Option MatchCand),
      l.foldl (matchStep sim uD uLoc) st =
        (l.filter (survives uD)).foldl (scanStep (fun j => sim uLoc j.location)) st := by
  intro l
  induction l with
  | nil => intro st; rfl
  | cons j t ih =>
    intro st
    simp only [List.foldl_cons, List.filter_cons]
    rcases hj : j.date with _ | d
    · have h1 : matchStep sim uD uLoc st j = st := by
        simp [matchStep, hj]
      have h2 : survives uD j = false := by
        simp [survives, hj]
      rw [h1, h2]
      exact ih st
    · by_cases hd : (uD - d).natAbs ≤ 1
      · have h1 : matchStep sim uD uLoc st j =
            scanStep (fun j => sim uLoc j.location) st j := by
          simp [matchStep, hj, hd, scanStep]
        have h2 : survives uD j = true := by
          simp [survives, hj, hd]
        rw [h1, h2]
        simp only [List.foldl_cons]
        exact ih _
      · have h1 : matchStep sim uD uLoc st j = st := by
          simp [matchStep, hj, hd]
        have h2 : survives uD j = false := by
          simp [survives, hj, hd]
        rw [h1, h2]
        exact ih st

theorem foldl_scanStep_eq_firstMaxRec {α : Type} (f : α → Nat) :
    ∀ (l : List α) (b : α),
      (l.foldl (scanStep f) ((f b : Int), some b)).2 =
        match firstMaxRec f l with
        | none => some b
        | some y => if (f b : Int) < (f y : Int) then some y else some b := by
  intro l
  induction l with
  | nil => intro b; rfl
  | cons x t ih =>
    intro b
    simp only [List.foldl_cons]
    by_cases hxb : (f b : Int) < (f x : Int)
    · have hs : scanStep f ((f b : Int), some b) x = ((f x : Int), some x) := by
        simp [scanStep, hxb]
      rw [hs, ih x]
      rcases ht : firstMaxRec f t with _ | y
      · simp [firstMaxRec, ht, hxb]
      · by_cases hxy : (f x : Int) < (f y : Int)
        · have hby : (f b : Int) < (f y : Int) := lt_trans hxb hxy
          simp [firstMaxRec, ht, hxy, hxb, hby]
        · simp [firstMaxRec, ht, hxy, hxb]
    · have hs : scanStep f ((f b : Int), some b) x = ((f b : Int), some b) := by
        simp [scanStep]
        intro h
        exact absurd (by exact_mod_cast h) hxb
      rw [hs, ih b]
      rcases ht : firstMaxRec f t with _ | y
      · simp [firstMaxRec, ht, hxb]
      · by_cases hxy : (f x : Int) < (f y : Int)
        · simp [firstMaxRec, ht, hxy]
        · have hyb : ¬ (f b : Int) < (f y : Int) := by
            intro h
            exact hxb (lt_of_lt_of_le h (not_lt.mp hxy))
          simp [firstMaxRec, ht, hxy, hxb, hyb]

theorem findBestMatch_eq_firstMaxRec (sim : List Char → List Char → Nat) (uD : Int)
    (uLoc : List Char) (cands : List MatchCand) :
    findBestMatch sim uD uLoc cands =
      firstMaxRec (fun j => sim uLoc j.location) (cands.filter (survives uD)) := by
  unfold findBestMatch
  rw [foldl_matchStep_eq_filter]
  rcases hs : cands.filter (survives uD) with _ | ⟨x, t⟩
  · rfl
  · have h0 : scanStep (fun j => sim uLoc j.location) (-1, none) x =
        ((sim uLoc x.location : Int), some x) := by
      have : (-1 : Int) < (sim uLoc x.location : Nat) := by
        have := Int.natCast_nonneg (sim uLoc x.location)
        omega
      simp [scanStep, this]
    simp only [List.foldl_cons, h0]
    rw [foldl_scanStep_eq_firstMaxRec]
    rcases ht : firstMaxRec (fun j => sim uLoc j.location) t with _ | y <;>
      simp [firstMaxRec, ht]

theorem firstMaxRec_eq_none_iff {α : Type} (f : α → Nat) (l : List α) :
    firstMaxRec f l = none ↔ l = [] := by
  cases l with
  | nil => simp [firstMaxRec]
  | cons x t =>
    simp only [firstMaxRec]
    rcases ht : firstMaxRec f t with _ | y <;> simp
    split <;> simp

theorem firstMaxRec_first_max {α : Type} (f : α → Nat) :
    ∀ (l : List α) (c : α), firstMaxRec f l = some c →
      ∃ l1 l2, l = l1 ++ c :: l2 ∧ (∀ a ∈ l1, f a < f c) ∧ (∀ a ∈ l2, f a ≤ f c) := by
  intro l
  induction l with
  | nil => intro c h; cases h
  | cons x t ih =>
    intro c h
    rcases ht : firstMaxRec f t with _ | y
    · have hte : t = [] := (firstMaxRec_eq_none_iff f t).mp ht
      have hc : c = x := by
        simp only [firstMaxRec, ht, Option.some.injEq] at h
        exact h.symm
      subst hc; subst hte
      exact ⟨[], [], rfl, by simp, by simp⟩
    · simp only [firstMaxRec, ht] at h
      by_cases hxy : (f x : Int) < (f y : Int)
      · rw [if_pos hxy] at h
        have hc : c = y := by cases h; rfl
        obtain ⟨l1, l2, hdec, h1, h2⟩ := ih y ht
        rw [hc]
        refine ⟨x :: l1, l2, by rw [hdec]; rfl, ?_, h2⟩
        intro a ha
        rcases List.mem_cons.mp ha with rfl | ha'
        · exact_mod_cast hxy
        · exact h1 a ha'
      · rw [if_neg hxy] at h
        have hc : c = x := by cases h; rfl
        obtain ⟨l1, l2, hdec, h1, h2⟩ := ih y ht
        have hyx : f y ≤ f x := by exact_mod_cast not_lt.mp hxy
        rw [hc]
        refine ⟨[], t, rfl, by simp, ?_⟩
        intro a ha
        rw [hdec] at ha
        rcases List.mem_append.mp ha with ha' | ha'
        · exact le_of_lt (lt_of_lt_of_le (h1 a ha') hyx)
        · rcases List.mem_cons.mp ha' with rfl | ha''
          · exact hyx
          · exact le_trans (h2 a ha'') hyx

/-! ### Helper lemmas about the string primitives -/

theorem digit_not_ws (c : Char) (h : c.isDigit = true) : isWS c = false := by
  by_contra hw
  rw [Bool.not_eq_false] at hw
  simp only [isWS, Bool.or_eq_true, decide_eq_true_eq] at hw
  have hc : c = ' ' ∨ c = '\t' ∨ c = '\n' ∨ c = '\r' ∨ c = '\x0b' ∨ c = '\x0c' := by
    tauto
  rcases hc with rfl | rfl | rfl | rfl | rfl | rfl <;> exact absurd h (by decide)

theorem digit_ne (c : Char) (x : Char) (h : c.isDigit = true) (hx : x.isDigit = false)
    (hcx : c = x) : False := by
  subst hcx
  rw [h] at hx
  cases hx

theorem dropWhile_of_head_false {p : Char → Bool} {c : Char} {l : List Char}
    (h : p c = false) : (c :: l).dropWhile p = c :: l := by
  simp [List.dropWhile_cons, h]

theorem dropWhile_all_false {p : Char → Bool} :
    ∀ l : List Char, (∀ c ∈ l, p c = false) → l.dropWhile p = l := by
  intro l h
  cases l with
  | nil => rfl
  | cons c t => exact dropWhile_of_head_false (h c (by simp))

theorem pyStrip_all_not_ws (l : List Char) (h : ∀ c ∈ l, isWS c = false) :
    pyStrip l = l := by
  unfold pyStrip
  rw [dropWhile_all_false l h, dropWhile_all_false l.reverse
      (fun c hc => h c (List.mem_reverse.mp hc)), List.reverse_reverse]

theorem pyStrip_shaped (a : Char) (mid fin : List Char) (ha : isWS a = false)
    (h0 : fin ≠ []) (hd : fin.all Char.isDigit = true) :
    pyStrip (a :: (mid ++ fin)) = a :: (mid ++ fin) := by
  unfold pyStrip
  rw [dropWhile_of_head_false ha]
  rcases hrev : fin.reverse with _ | ⟨b, u⟩
  · exact absurd (by simpa using congrArg List.reverse hrev) h0
  · have hb : b ∈ fin := by
      rw [← List.mem_reverse, hrev]; simp
    have hbd : isWS b = false := digit_not_ws b (by
      simpa using List.all_eq_true.mp hd b hb)
    have hrw : (a :: (mid ++ fin)).reverse = b :: (u ++ (mid.reverse ++ [a])) := by
      simp [List.reverse_cons, List.reverse_append, hrev]
    rw [hrw, dropWhile_of_head_false hbd, ← hrw, List.reverse_reverse]

theorem takeWhile_append_cons {p : Char → Bool} :
    ∀ (l : List Char) (c : Char) (r : List Char), (∀ a ∈ l, p a = true) → p c = false →
      (l ++ c :: r).takeWhile p = l := by
  intro l
  induction l with
  | nil => intro c r _ hc; simp [List.takeWhile_cons, hc]
  | cons a t ih =>
    intro c r hl hc
    have ha : p a = true := hl a (by simp)
    simp only [List.cons_append, List.takeWhile_cons, ha]
    rw [ih c r (fun x hx => hl x (by simp [hx])) hc]
    simp

theorem dropWhile_append_cons {p : Char → Bool} :
    ∀ (l : List Char) (c : Char) (r : List Char), (∀ a ∈ l, p a = true) → p c = false →
      (l ++ c :: r).dropWhile p = c :: r := by
  intro l
  induction l with
  | nil => intro c r _ hc; simp [List.dropWhile_cons, hc]
  | cons a t ih =>
    intro c r hl hc
    have ha : p a = true := hl a (by simp)
    simp only [List.cons_append, List.dropWhile_cons, ha]
    rw [ih c r (fun x hx => hl x (by simp [hx])) hc]
    simp

theorem leadsWith_append (m : List Char) : ∀ r : List Char, leadsWith m (m ++ r) = true := by
  induction m with
  | nil => intro r; rfl
  | cons a t ih => intro r; simp [leadsWith, ih r]

theorem hasSub_of_head_not_mem (n0 : Char) (ns : List Char) :
    ∀ hay : List Char, n0 ∉ hay → hasSub (n0 :: ns) hay = false := by
  intro hay
  induction hay with
  | nil => intro _; rfl
  | cons c t ih =>
    intro h
    have hc : n0 ≠ c := fun he => h (by simp [he])
    simp only [hasSub, Bool.or_eq_false_iff]
    constructor
    · simp [leadsWith, hc]
    · exact ih (fun hm => h (by simp [hm]))

theorem splitChar_not_mem (sep : Char) :
    ∀ l : List Char, sep ∉ l → splitChar sep l = [l] := by
  intro l
  induction l with
  | nil => intro _; rfl
  | cons c t ih =>
    intro h
    have hc : ¬ c = sep := fun he => h (by simp [he])
    simp only [splitChar, if_neg hc]
    rw [ih (fun hm => h (by simp [hm]))]

theorem splitChar_single (sep : Char) :
    ∀ (l1 l2 : List Char), sep ∉ l1 → sep ∉ l2 →
      splitChar sep (l1 ++ sep :: l2) = [l1, l2] := by
  intro l1
  induction l1 with
  | nil =>
    intro l2 _ h2
    simp only [List.nil_append, splitChar, if_pos rfl]
    rw [splitChar_not_mem sep l2 h2]
    simp
  | cons c t ih =>
    intro l2 h1 h2
    have hc : ¬ c = sep := fun he => h1 (by simp [he])
    simp only [List.cons_append, splitChar, if_neg hc, List.append_eq]
    have hrec := ih l2 (fun hm => h1 (by simp [hm])) h2
    rw [hrec]

theorem pyDigitsGo_all (a : Nat) :
    ∀ l : List Char, l.all Char.isDigit = true →
      pyDigitsGo a l = some (l.foldl (fun x c => x * 10 + digitVal c) a) := by
  intro l
  induction l generalizing a with
  | nil => intro _; rfl
  | cons c t ih =>
    intro h
    have hc : c.isDigit = true := by simpa using (List.all_eq_true.mp h c (by simp))
    have ht : t.all Char.isDigit = true := by
      rw [List.all_eq_true] at h ⊢
      exact fun x hx => h x (by simp [hx])
    have hstep : pyDigitsGo a (c :: t) = pyDigitsGo (a * 10 + digitVal c) t := by
      rw [pyDigitsGo.eq_def]
      simp [hc]
    rw [hstep, List.foldl_cons]
    exact ih (a * 10 + digitVal c) ht

theorem pyDigits_digits (l : List Char) (h0 : l ≠ []) (hd : l.all Char.isDigit = true) :
    pyDigits l = some (natOfDigits l) := by
  rcases l with _ | ⟨c, t⟩
  · exact absurd rfl h0
  · have hc : c.isDigit = true := by simpa using (List.all_eq_true.mp hd c (by simp))
    have ht : t.all Char.isDigit = true := by
      rw [List.all_eq_true] at hd ⊢
      exact fun x hx => hd x (by simp [hx])
    simp only [pyDigits, hc, if_pos]
    rw [pyDigitsGo_all (digitVal c) t ht]
    simp [natOfDigits]

theorem pyInt_digits (l : List Char) (h0 : l ≠ []) (hd : l.all Char.isDigit = true) :
    pyInt l = some (natOfDigits l : Int) := by
  have hnw : ∀ c ∈ l, isWS c = false := fun c hc =>
    digit_not_ws c (by simpa using List.all_eq_true.mp hd c hc)
  have hstrip : pyStrip l = l := pyStrip_all_not_ws l hnw
  unfold pyInt
  rw [hstrip]
  rcases l with _ | ⟨c, t⟩
  · exact absurd rfl h0
  · have hc : c.isDigit = true := by simpa using (List.all_eq_true.mp hd c (by simp))
    have hplus : c ≠ '+' := fun he => digit_ne c '+' hc (by decide) he
    have hminus : c ≠ '-' := fun he => digit_ne c '-' hc (by decide) he
    split
    · rename_i r heq
      exact absurd (List.head_eq_of_cons_eq heq) hplus
    · rename_i r heq
      exact absurd (List.head_eq_of_cons_eq heq) hminus
    · rw [pyDigits_digits (c :: t) (by simp) hd]
      rfl

theorem digit_ne_colon (c : Char) (h : c.isDigit = true) : ¬ c = ':' :=
  fun he => digit_ne c ':' h (by decide) he

theorem colon_not_mem_digits (l : List Char) (hd : l.all Char.isDigit = true) :
    ':' ∉ l := by
  intro hm
  exact digit_ne_colon ':' (by simpa using List.all_eq_true.mp hd ':' hm) rfl

theorem all_digits_mem {l : List Char} (h : l.all Char.isDigit = true) :
    ∀ a ∈ l, Char.isDigit a = true := fun a ha => by
  simpa using List.all_eq_true.mp h a ha

theorem takeWhile_all_true {p : Char → Bool} :
    ∀ l : List Char, (∀ a ∈ l, p a = true) → l.takeWhile p = l := by
  intro l
  induction l with
  | nil => intro _; rfl
  | cons a t ih =>
    intro h
    have ha : p a = true := h a (by simp)
    simp only [List.takeWhile_cons, ha]
    rw [ih (fun x hx => h x (by simp [hx]))]
    simp

theorem dropWhile_all_true {p : Char → Bool} :
    ∀ l : List Char, (∀ a ∈ l, p a = true) → l.dropWhile p = [] := by
  intro l
  induction l with
  | nil => intro _; rfl
  | cons a t ih =>
    intro h
    have ha : p a = true := h a (by simp)
    simp only [List.dropWhile_cons, ha]
    rw [ih (fun x hx => h x (by simp [hx]))]
    simp

theorem parseRoundTime_shaped (d : Char) (ds mm ss : List Char)
    (hd : d.isDigit = true) (hds : ds.all Char.isDigit = true)
    (hmm0 : mm ≠ []) (hmm : mm.all Char.isDigit = true)
    (hss0 : ss ≠ []) (hss : ss.all Char.isDigit = true) :
    parseRoundTime ('R' :: (d :: ds ++ ',' :: ' ' :: (mm ++ ':' :: ss))) =
      some (d :: ds, mm ++ ':' :: ss) := by
  have hallds : ∀ a ∈ d :: ds, Char.isDigit a = true := by
    intro a ha
    rcases List.mem_cons.mp ha with rfl | h'
    · exact hd
    · exact all_digits_mem hds a h'
  have hallmm := all_digits_mem hmm
  have h1 : ((d :: ds) ++ ',' :: ' ' :: (mm ++ ':' :: ss)).takeWhile Char.isDigit =
      d :: ds := takeWhile_append_cons (d :: ds) ',' _ hallds (by decide)
  have h2 : ((d :: ds) ++ ',' :: ' ' :: (mm ++ ':' :: ss)).dropWhile Char.isDigit =
      ',' :: ' ' :: (mm ++ ':' :: ss) :=
    dropWhile_append_cons (d :: ds) ',' _ hallds (by decide)
  have h3 : (mm ++ ':' :: ss).takeWhile Char.isDigit = mm :=
    takeWhile_append_cons mm ':' ss hallmm (by decide)
  have h4 : (mm ++ ':' :: ss).dropWhile Char.isDigit = ':' :: ss :=
    dropWhile_append_cons mm ':' ss hallmm (by decide)
  have h5 : (' ' :: (mm ++ ':' :: ss)).dropWhile isWS = mm ++ ':' :: ss := by
    rcases mm with _ | ⟨m0, mr⟩
    · exact absurd rfl hmm0
    · have hm0 : isWS m0 = false := digit_not_ws m0 (hallmm m0 (by simp))
      rw [List.dropWhile_cons]
      simp only [show isWS ' ' = true from rfl, if_true, List.cons_append]
      exact dropWhile_of_head_false hm0
  unfold parseRoundTime
  simp only [h1, h2, h3, h4, h5]
  simp [hmm0, hss0, hss]

theorem parseFinalPattern_build (m X R T : List Char)
    (hfind : findMethod finalMethods (m ++ X) = some (m, X))
    (hrt : parseRoundTime X = some (R, T)) :
    parseFinalPattern ("Final".data ++ (m ++ X)) = some (m, 'R' :: R, T) := by
  unfold parseFinalPattern
  rw [if_pos (leadsWith_append "Final".data (m ++ X))]
  have hdrop : ("Final".data ++ (m ++ X)).drop 5 = m ++ X := by
    have h5 : ("Final".data).length = 5 := rfl
    rw [← h5, List.drop_left]
  rw [hdrop, hfind]
  simp only [hrt]

theorem parseFinalPattern_shaped (m : List Char) (hm : m ∈ finalMethods) (d : Char)
    (ds mm ss : List Char)
    (hd : d.isDigit = true) (hds : ds.all Char.isDigit = true)
    (hmm0 : mm ≠ []) (hmm : mm.all Char.isDigit = true)
    (hss0 : ss ≠ []) (hss : ss.all Char.isDigit = true) :
    parseFinalPattern
        ("Final".data ++ (m ++ 'R' :: (d :: ds ++ ',' :: ' ' :: (mm ++ ':' :: ss)))) =
      some (m, 'R' :: d :: ds, mm ++ ':' :: ss) := by
  have hrt := parseRoundTime_shaped d ds mm ss hd hds hmm0 hmm hss0 hss
  simp only [finalMethods, List.mem_cons, List.not_mem_nil, or_false] at hm
  rcases hm with rfl | rfl | rfl | rfl | rfl <;>
    exact parseFinalPattern_build _ _ _ _ rfl hrt

theorem natOfDigits_single (d : Char) : natOfDigits [d] = digitVal d := by
  simp [natOfDigits]

theorem pyTimestamp_shaped (d : Char) (ds mm ss : List Char)
    (hd : d.isDigit = true)
    (hmm0 : mm ≠ []) (hmm : mm.all Char.isDigit = true)
    (hss0 : ss ≠ []) (hss : ss.all Char.isDigit = true) :
    pyTimestamp ('R' :: d :: ds) (mm ++ ':' :: ss) =
      some (((digitVal d : Int) - 1) * 5 * 60 + (natOfDigits mm : Int) * 60 +
        (natOfDigits ss : Int)) := by
  have hne : ¬('R' :: d :: ds = [] ∨ mm ++ ':' :: ss = []) := by
    rcases mm with _ | ⟨m0, mr⟩
    · exact absurd rfl hmm0
    · simp
  have hdint : pyInt [d] = some ((digitVal d : Int)) := by
    rw [pyInt_digits [d] (by simp) (by simp [hd]), natOfDigits_single]
  have hsplit : splitChar ':' (mm ++ ':' :: ss) = [mm, ss] :=
    splitChar_single ':' mm ss (colon_not_mem_digits mm hmm) (colon_not_mem_digits ss hss)
  have hmmint : pyInt mm = some ((natOfDigits mm : Int)) := pyInt_digits mm hmm0 hmm
  have hssint : pyInt ss = some ((natOfDigits ss : Int)) := pyInt_digits ss hss0 hss
  unfold pyTimestamp
  rw [if_neg hne]
  simp only [List.drop_succ_cons, List.drop_zero, hdint, hsplit, hmmint, hssint]

theorem space_not_mem_clock (mm ss : List Char) (hmm : mm.all Char.isDigit = true)
    (hss : ss.all Char.isDigit = true) : ' ' ∉ mm ++ ':' :: ss := by
  intro hsp
  rcases List.mem_append.mp hsp with h' | h'
  · exact absurd (all_digits_mem hmm ' ' h') (by decide)
  · rcases List.mem_cons.mp h' with h'' | h''
    · cases h''
    · exact absurd (all_digits_mem hss ' ' h'') (by decide)

theorem processStatValue_clock_case (pf : List Char → Option ℚ) (s : List Char)
    (hdash : s ≠ "---".data) (hof : hasSub " of ".data s = false)
    (hcolon : s.contains ':' = true) :
    processStatValue pf s =
      (match clockBranch s with
       | some v => .intVal v
       | none => .strVal s) := by
  unfold processStatValue
  simp [hdash, hof, hcolon]
  intro hnot
  exact absurd (by simpa using hcolon) hnot

theorem clockBranch_digits (mm ss : List Char)
    (hmm0 : mm ≠ []) (hmm : mm.all Char.isDigit = true)
    (hss0 : ss ≠ []) (hss : ss.all Char.isDigit = true) :
    clockBranch (mm ++ ':' :: ss) =
      some ((natOfDigits mm : Int) * 60 + (natOfDigits ss : Int)) := by
  unfold clockBranch
  rw [splitChar_single ':' mm ss (colon_not_mem_digits mm hmm) (colon_not_mem_digits ss hss)]
  simp only [pyInt_digits mm hmm0 hmm, pyInt_digits ss hss0 hss]

theorem clock_ne_dashes (mm ss : List Char) (hmm0 : mm ≠ [])
    (hmm : mm.all Char.isDigit = true) : mm ++ ':' :: ss ≠ "---".data := by
  rcases mm with _ | ⟨m0, mr⟩
  · exact absurd rfl hmm0
  · intro heq
    rw [List.cons_append] at heq
    injection heq with h1 h2
    exact digit_ne m0 '-' (all_digits_mem hmm m0 (by simp)) (by decide) h1

theorem parseLivePattern_time (d : Char) (ds mm ss : List Char)
    (hd : d.isDigit = true) (hds : ds.all Char.isDigit = true)
    (hmm0 : mm ≠ []) (hmm : mm.all Char.isDigit = true)
    (hss0 : ss ≠ []) (hss : ss.all Char.isDigit = true) :
    parseLivePattern ('R' :: (d :: ds ++ ',' :: ' ' :: (mm ++ ':' :: ss))) =
      some (d :: ds, some (mm ++ ':' :: ss)) := by
  have hallds : ∀ a ∈ d :: ds, Char.isDigit a = true := by
    intro a ha
    rcases List.mem_cons.mp ha with rfl | h'
    · exact hd
    · exact all_digits_mem hds a h'
  have hallmm := all_digits_mem hmm
  have h1 : ((d :: ds) ++ ',' :: ' ' :: (mm ++ ':' :: ss)).takeWhile Char.isDigit =
      d :: ds := takeWhile_append_cons (d :: ds) ',' _ hallds (by decide)
  have h2 : ((d :: ds) ++ ',' :: ' ' :: (mm ++ ':' :: ss)).dropWhile Char.isDigit =
      ',' :: ' ' :: (mm ++ ':' :: ss) :=
    dropWhile_append_cons (d :: ds) ',' _ hallds (by decide)
  have h3 : (mm ++ ':' :: ss).takeWhile Char.isDigit = mm :=
    takeWhile_append_cons mm ':' ss hallmm (by decide)
  have h4 : (mm ++ ':' :: ss).dropWhile Char.isDigit = ':' :: ss :=
    dropWhile_append_cons mm ':' ss hallmm (by decide)
  have h5 : (' ' :: (mm ++ ':' :: ss)).dropWhile isWS = mm ++ ':' :: ss := by
    rcases mm with _ | ⟨m0, mr⟩
    · exact absurd rfl hmm0
    · have hm0 : isWS m0 = false := digit_not_ws m0 (hallmm m0 (by simp))
      rw [List.dropWhile_cons]
      simp only [show isWS ' ' = true from rfl, if_true, List.cons_append]
      exact dropWhile_of_head_false hm0
  have hEnd : leadsWith "END".data
      ('R' :: (d :: ds ++ ',' :: ' ' :: (mm ++ ':' :: ss))) = false := rfl
  unfold parseLivePattern
  simp only [hEnd, Bool.false_eq_true, false_and, if_false, h1, h2, h3, h4, h5]
  simp [hmm0, hss0, hss]

theorem parseLivePattern_round (d : Char) (ds : List Char)
    (hd : d.isDigit = true) (hds : ds.all Char.isDigit = true) :
    parseLivePattern ('R' :: d :: ds) = some (d :: ds, none) := by
  have hallds : ∀ a ∈ d :: ds, Char.isDigit a = true := by
    intro a ha
    rcases List.mem_cons.mp ha with rfl | h'
    · exact hd
    · exact all_digits_mem hds a h'
  have h1 : (d :: ds).takeWhile Char.isDigit = d :: ds := takeWhile_all_true _ hallds
  have h2 : (d :: ds).dropWhile Char.isDigit = [] := dropWhile_all_true _ hallds
  have hEnd : leadsWith "END".data ('R' :: d :: ds) = false := rfl
  unfold parseLivePattern
  simp only [hEnd, Bool.false_eq_true, false_and, if_false, h1, h2]
  simp

theorem parseLivePattern_end (d : Char) (ds : List Char)
    (hd : d.isDigit = true) (hds : ds.all Char.isDigit = true) :
    parseLivePattern ('E' :: 'N' :: 'D' :: ' ' :: 'R' :: d :: ds) =
      some (d :: ds, none) := by
  have hallds : ∀ a ∈ d :: ds, Char.isDigit a = true := by
    intro a ha
    rcases List.mem_cons.mp ha with rfl | h'
    · exact hd
    · exact all_digits_mem hds a h'
  have h1 : (d :: ds).takeWhile Char.isDigit = d :: ds := takeWhile_all_true _ hallds
  have h2 : (d :: ds).dropWhile Char.isDigit = [] := dropWhile_all_true _ hallds
  have hEnd : leadsWith "END".data ('E' :: 'N' :: 'D' :: ' ' :: 'R' :: d :: ds) =
      true := rfl
  have hTake : (('E' :: 'N' :: 'D' :: ' ' :: 'R' :: d :: ds).drop 3).takeWhile isWS =
      [' '] := rfl
  have hDrop : (('E' :: 'N' :: 'D' :: ' ' :: 'R' :: d :: ds).drop 3).dropWhile isWS =
      'R' :: d :: ds := rfl
  unfold parseLivePattern
  rw [if_pos ⟨hEnd, by rw [hTake]; simp⟩, hDrop]
  simp only [h1, h2]
  simp

theorem parseFinalPattern_some_leads (t : List Char)
    (x : List Char × List Char × List Char) (h : parseFinalPattern t = some x) :
    leadsWith "Final".data t = true := by
  by_cases hl : leadsWith "Final".data t = true
  · exact hl
  · unfold parseFinalPattern at h
    rw [if_neg hl] at h
    cases h

/-! ### Claim theorems -/

/-- Claim C2, counterexample: the claim asserts the derived timestamp equals
`(round_number - 1) * 300 + minutes * 60 + seconds` for every round number,
but on `"FinalKO/TKOR10, 2:30"` (round 10) the code computes the round index
from the FIRST digit of the round only (`int(round_num[1]) - 1 = 0`), giving
timestamp 150 instead of the claimed `(10 - 1) * 300 + 150 = 2850`. -/
theorem claim_C2_counterexample :
    getFinalScore (some "FinalKO/TKOR10, 2:30".data) =
      ⟨some "KO/TKO".data, some "R10".data, some "2:30".data, some 150⟩ ∧
    (150 : Int) ≠ ((10 : Int) - 1) * 300 + 2 * 60 + 30 := by
  exact ⟨by decide, by decide⟩

/-- Claim C2 (amended): for every completed-fight result string
`"Final<METHOD>R<n>, <MM:SS>"` with METHOD in the five-method set, parsing
returns `(METHOD, "R<n>", "<MM:SS>")`, and the derived timestamp equals
`(first_digit_of_n - 1) * 300 + minutes * 60 + seconds`; for single-digit
round numbers this coincides with the claim's `(round_number - 1) * 300`
formula, and `"FinalKO/TKOR3, 2:30"` yields `("KO/TKO", "R3", "2:30")` with
timestamp 750.  (Each round is a fixed 300-second block.) -/
theorem claim_C2_amended (m : List Char) (hm : m ∈ finalMethods) (d : Char)
    (ds mm ss : List Char) (hd : d.isDigit = true) (hds : ds.all Char.isDigit = true)
    (hmm0 : mm ≠ []) (hmm : mm.all Char.isDigit = true)
    (hss0 : ss ≠ []) (hss : ss.all Char.isDigit = true) :
    getFinalScore
        (some ("Final".data ++ (m ++ 'R' :: (d :: ds ++ ',' :: ' ' :: (mm ++ ':' :: ss))))) =
      { method := some m, round := some ('R' :: d :: ds), time := some (mm ++ ':' :: ss),
        timestamp := some (((digitVal d : Int) - 1) * 300 +
          (natOfDigits mm : Int) * 60 + (natOfDigits ss : Int)) } ∧
    (ds = [] →
      ((digitVal d : Int) - 1) * 300 = ((natOfDigits (d :: ds) : Int) - 1) * 300) ∧
    getFinalScore (some "FinalKO/TKOR3, 2:30".data) =
      { method := some "KO/TKO".data, round := some "R3".data, time := some "2:30".data,
        timestamp := some 750 } := by
  refine ⟨?_, ?_, by decide⟩
  · have e1 : "Final".data = 'F' :: 'i' :: 'n' :: 'a' :: 'l' :: [] := rfl
    have hsh : "Final".data ++ (m ++ 'R' :: (d :: ds ++ ',' :: ' ' :: (mm ++ ':' :: ss))) =
        'F' :: (('i' :: 'n' :: 'a' :: 'l' ::
          (m ++ 'R' :: d :: (ds ++ ',' :: ' ' :: (mm ++ [':'])))) ++ ss) := by
      simp [e1, List.append_assoc]
    have hstrip :
        pyStrip ("Final".data ++ (m ++ 'R' :: (d :: ds ++ ',' :: ' ' :: (mm ++ ':' :: ss)))) =
          "Final".data ++ (m ++ 'R' :: (d :: ds ++ ',' :: ' ' :: (mm ++ ':' :: ss))) := by
      rw [hsh]
      exact pyStrip_shaped 'F' _ ss (by decide) hss0 hss
    have hpat := parseFinalPattern_shaped m hm d ds mm ss hd hds hmm0 hmm hss0 hss
    have hts := pyTimestamp_shaped d ds mm ss hd hmm0 hmm hss0 hss
    unfold getFinalScore
    simp only [hstrip, hpat, hts]
    have harith : ((digitVal d : Int) - 1) * 5 * 60 + (natOfDigits mm : Int) * 60 +
        (natOfDigits ss : Int) =
        ((digitVal d : Int) - 1) * 300 + (natOfDigits mm : Int) * 60 +
        (natOfDigits ss : Int) := by ring
    rw [harith]
  · intro h
    subst h
    rw [natOfDigits_single]

/-- Claim C2 (amended), witness: the general theorem applied at
`"FinalKO/TKOR3, 2:30"` built from its pieces. -/
theorem claim_C2_witness :
    getFinalScore
        (some ("Final".data ++ ("KO/TKO".data ++ 'R' ::
          ('3' :: [] ++ ',' :: ' ' :: (['2'] ++ ':' :: ['3', '0']))))) =
      { method := some "KO/TKO".data, round := some ('R' :: '3' :: []),
        time := some (['2'] ++ ':' :: ['3', '0']),
        timestamp := some (((digitVal '3' : Int) - 1) * 300 +
          (natOfDigits ['2'] : Int) * 60 + (natOfDigits ['3', '0'] : Int)) } :=
  (claim_C2_amended "KO/TKO".data (by decide) '3' [] ['2'] ['3', '0'] (by decide)
    (by decide) (by decide) (by decide) (by decide) (by decide)).1

/-- Claim C3, counterexample: the claim says zero input yields null, but
`american_to_decimal(0)` returns `1.0` (the `else` branch), not `None`. -/
theorem claim_C3_counterexample :
    americanToDecimal (some 0) = some 1 ∧ (some (1 : ℚ) : Option ℚ) ≠ none := by
  constructor
  · norm_num [americanToDecimal]
  · simp

/-- Claim C3 (amended): positive American odds map to `x/100 + 1`, negative to
`100/|x| + 1`, unparseable input to null, and ZERO to the decimal `1.0` (not
null); in particular `american_to_decimal(-260) = 100/260 + 1` and
`american_to_decimal(150) = 2.5`. -/
theorem claim_C3_amended :
    (∀ x : ℚ, 0 < x → americanToDecimal (some x) = some (x / 100 + 1)) ∧
    (∀ x : ℚ, x < 0 → americanToDecimal (some x) = some (100 / |x| + 1)) ∧
    americanToDecimal (some 0) = some 1 ∧
    americanToDecimal none = none ∧
    americanToDecimal (some (-260)) = some (100 / 260 + 1) ∧
    americanToDecimal (some 150) = some (5 / 2) := by
  refine ⟨?_, ?_, by norm_num [americanToDecimal], rfl, by norm_num [americanToDecimal],
    by norm_num [americanToDecimal]⟩
  · intro x hx
    simp [americanToDecimal, hx]
  · intro x hx
    rw [americanToDecimal, if_neg (by linarith), if_pos hx]

/-- Claim C3 (amended), witness: the positive branch applied at 150. -/
theorem claim_C3_witness : americanToDecimal (some 150) = some (150 / 100 + 1) :=
  claim_C3_amended.1 150 (by norm_num)

/-- Claim C5, counterexample: the claim says every malformed input yields
null, but `process_stat_value("bad")` returns the original string `"bad"`
(the final `except ValueError` fallback), not `None`. -/
theorem claim_C5_counterexample :
    processStatValue (fun _ => none) "bad".data = StatValue.strVal "bad".data ∧
    StatValue.strVal "bad".data ≠ StatValue.noneVal := by
  exact ⟨by decide, by decide⟩

/-- Claim C5 (amended): `"M:SS"` with integer minute and second fields yields
`M*60 + SS`; `"2:30"` yields 150 and `"0:00"` yields 0; a malformed input is
returned as the (possibly rewritten) original text — never null — in
particular `process_stat_value("bad") = "bad"`, and any `":"`-containing
input whose clock conversion fails comes back as the original string.  The
normalizer is a total function (never raises). -/
theorem claim_C5_amended :
    (∀ (pf : List Char → Option ℚ) (mm ss : List Char), mm ≠ [] →
      mm.all Char.isDigit = true → ss ≠ [] → ss.all Char.isDigit = true →
      processStatValue pf (mm ++ ':' :: ss) =
        StatValue.intVal ((natOfDigits mm : Int) * 60 + (natOfDigits ss : Int))) ∧
    (∀ pf : List Char → Option ℚ, processStatValue pf "2:30".data = StatValue.intVal 150) ∧
    (∀ pf : List Char → Option ℚ, processStatValue pf "0:00".data = StatValue.intVal 0) ∧
    (∀ pf : List Char → Option ℚ,
      processStatValue pf "bad".data = StatValue.strVal "bad".data) ∧
    (∀ (pf : List Char → Option ℚ) (s : List Char), s ≠ "---".data →
      hasSub " of ".data s = false → s.contains ':' = true → clockBranch s = none →
      processStatValue pf s = StatValue.strVal s) := by
  refine ⟨?_, fun pf => rfl, fun pf => rfl, fun pf => rfl, ?_⟩
  · intro pf mm ss hmm0 hmm hss0 hss
    have hdash := clock_ne_dashes mm ss hmm0 hmm
    have hof : hasSub " of ".data (mm ++ ':' :: ss) = false :=
      hasSub_of_head_not_mem ' ' _ _ (space_not_mem_clock mm ss hmm hss)
    have hcolon : (mm ++ ':' :: ss).contains ':' = true := by simp
    rw [processStatValue_clock_case pf _ hdash hof hcolon,
      clockBranch_digits mm ss hmm0 hmm hss0 hss]
  · intro pf s hdash hof hcolon hclock
    rw [processStatValue_clock_case pf s hdash hof hcolon, hclock]

/-- Claim C5 (amended), witness: the clock branch applied at `"2:30"` split
into its digit groups. -/
theorem claim_C5_witness :
    processStatValue (fun _ => none) (['2'] ++ ':' :: ['3', '0']) =
      StatValue.intVal ((natOfDigits ['2'] : Int) * 60 + (natOfDigits ['3', '0'] : Int)) :=
  claim_C5_amended.1 (fun _ => none) ['2'] ['3', '0'] (by decide) (by decide) (by decide)
    (by decide)

/-- Claim C9: the spec (and the function's own docstring) say a missing
fighter-name anchor yields a partially-populated record, but the code indexes
`fighters[0]` and `fighters[1]` unconditionally: with zero or one matched name
span it raises `IndexError` and aborts the page's extraction. -/
theorem claim_C9_theorem :
    getFighterNames [] = Except.error PyExc.indexError ∧
    getFighterNames ["Jon Jones".data] = Except.error PyExc.indexError ∧
    ∀ r : List Char × List Char, getFighterNames [] ≠ Except.ok r := by
  refine ⟨rfl, rfl, ?_⟩
  intro r h
  cases h

/-- Claim C1: for a source-A event with parsed date `uD` and location `uLoc`,
the matcher considers exactly the candidates whose date parses (`none` dates
are skipped, not fatal) and lies within 1 day of `uD`; each survivor is scored
by the location similarity `sim` (the library's token-set ratio); the result
is `none` exactly when no candidate survives the date filter, and otherwise
it is the survivor with the maximal score, the first-seen one on ties (every
earlier survivor scores strictly less, every later one at most as much).
Determinism is inherent: `findBestMatch` is a pure function of its inputs. -/
theorem claim_C1_matcher (sim : List Char → List Char → Nat) (uD : Int)
    (uLoc : List Char) (cands : List MatchCand) :
    (findBestMatch sim uD uLoc cands = none ↔ cands.filter (survives uD) = []) ∧
    ∀ c, findBestMatch sim uD uLoc cands = some c →
      ∃ l1 l2, cands.filter (survives uD) = l1 ++ c :: l2 ∧
        (∀ a ∈ l1, sim uLoc a.location < sim uLoc c.location) ∧
        (∀ a ∈ l2, sim uLoc a.location ≤ sim uLoc c.location) := by
  constructor
  · rw [findBestMatch_eq_firstMaxRec]
    exact firstMaxRec_eq_none_iff _ _
  · intro c h
    rw [findBestMatch_eq_firstMaxRec] at h
    exact firstMaxRec_first_max _ _ c h

/-- Similarity used by concrete matcher examples: the candidate location's
length. -/
def simLen : List Char → List Char → Nat := fun _ y => y.length

/-- Concrete matcher candidates: `candA` survives with a short location,
`candB` is 5 days away, `candC` has an unparseable date, `candD` survives
with a longer (higher-scoring) location. -/
def candA : MatchCand := ⟨some 0, "LV".data, "e1".data⟩

def candB : MatchCand := ⟨some 5, "LV".data, "e2".data⟩

def candC : MatchCand := ⟨none, "LV".data, "e3".data⟩

def candD : MatchCand := ⟨some 1, "LONG LOC".data, "e4".data⟩

/-- Claim C1, witness: the matcher theorem applied to a four-candidate list
whose best survivor is `candD`. -/
theorem claim_C1_witness :
    ∃ l1 l2, ([candA, candB, candC, candD].filter (survives 0)) = l1 ++ candD :: l2 ∧
      (∀ a ∈ l1, simLen "X".data a.location < simLen "X".data candD.location) ∧
      (∀ a ∈ l2, simLen "X".data a.location ≤ simLen "X".data candD.location) :=
  (claim_C1_matcher simLen 0 "X".data [candA, candB, candC, candD]).2 candD (by decide)

/-- Fetch oracle for the concurrent/sequential witness: two fixed pages. -/
def fetchTwo : List Char → Option FightPage := fun u =>
  if u = "a".data then
    some ⟨[some "F1".data, some "F2".data],
      [⟨some "J".data, [], none⟩, ⟨none, [], none⟩, ⟨none, [], none⟩]⟩
  else if u = "b".data then
    some ⟨[], [⟨none, [], none⟩, ⟨none, [], none⟩, ⟨none, [], none⟩]⟩
  else none

/-- Claim C6: over any fixed page content (`fetch`) the sequential and the
bounded-concurrent fight pipelines produce the same records up to ordering:
for any two fight-link orders that are permutations of each other (the
`list(set(...))` step fixes no order), the output record lists are
permutations of each other, field for field.  The per-page extractors are the
same function, so equal inputs give equal records. -/
theorem claim_C6_equiv (uni : List Char → List Char) (fetch : List Char → Option FightPage)
    (links links' : List (List Char)) (hperm : links.Perm links') :
    (syncEventFights uni fetch links).Perm (asyncEventFights uni fetch links') := by
  unfold syncEventFights asyncEventFights
  have he : syncParseFight uni fetch = asyncParseFight uni fetch := rfl
  rw [he]
  exact (hperm.map _).filterMap _

/-- Claim C6, witness: the equivalence applied to two links in swapped
orders over the two-page oracle. -/
theorem claim_C6_witness :
    (syncEventFights id fetchTwo ["a".data, "b".data]).Perm
      (asyncEventFights id fetchTwo ["b".data, "a".data]) :=
  claim_C6_equiv id fetchTwo ["a".data, "b".data] ["b".data, "a".data] (by decide)

/-- Claim C7: a scorecard round row whose score cell holds the `"-"`
placeholder (or fails integer conversion) is excluded from the rounds list
entirely, and every emitted round entry carries two integer scores obtained
from its row's score cells. -/
theorem claim_C7_rounds (rows : List (List (List Char))) :
    (∀ c0 c1 c2 rest, (c0 :: c1 :: c2 :: rest) ∈ rows →
      (c1 = "-".data ∨ c2 = "-".data) → parseRoundRow (c0 :: c1 :: c2 :: rest) = none) ∧
    (∀ c0 c1 c2 rest, (c0 :: c1 :: c2 :: rest) ∈ rows →
      (pyInt c1 = none ∨ pyInt c2 = none) → parseRoundRow (c0 :: c1 :: c2 :: rest) = none) ∧
    (∀ e ∈ parseRounds rows, ∃ cells ∈ rows, parseRoundRow cells = some e ∧
      ∃ c0 c1 c2 rest, cells = c0 :: c1 :: c2 :: rest ∧ ¬ c1 = "-".data ∧
        ¬ c2 = "-".data ∧ pyInt c1 = some e.fighter1 ∧ pyInt c2 = some e.fighter2) := by
  refine ⟨?_, ?_, ?_⟩
  · intro c0 c1 c2 rest _ hd
    simp only [parseRoundRow]
    rw [if_pos hd]
  · intro c0 c1 c2 rest _ hint
    simp only [parseRoundRow]
    by_cases hd : c1 = "-".data ∨ c2 = "-".data
    · rw [if_pos hd]
    · rw [if_neg hd]
      rcases hint with h1 | h2
      · rw [h1]
      · rw [h2]
        rcases pyInt c1 with _ | a <;> rfl
  · intro e he
    obtain ⟨cells, hmem, hsome⟩ := List.mem_filterMap.mp he
    refine ⟨cells, hmem, hsome, ?_⟩
    rcases cells with _ | ⟨c0, cells1⟩
    · simp [parseRoundRow] at hsome
    rcases cells1 with _ | ⟨c1, cells2⟩
    · simp [parseRoundRow] at hsome
    rcases cells2 with _ | ⟨c2, rest⟩
    · simp [parseRoundRow] at hsome
    by_cases hd : c1 = "-".data ∨ c2 = "-".data
    · simp only [parseRoundRow] at hsome
      rw [if_pos hd] at hsome
      cases hsome
    · simp only [parseRoundRow] at hsome
      rw [if_neg hd] at hsome
      rcases h1 : pyInt c1 with _ | a1 <;> rw [h1] at hsome
      · cases hsome
      rcases h2 : pyInt c2 with _ | a2 <;> rw [h2] at hsome
      · cases hsome
      have hae : (⟨c0, a1, a2⟩ : RoundScore) = e := by
        cases hsome
        rfl
      refine ⟨c0, c1, c2, rest, rfl, (not_or.mp hd).1, (not_or.mp hd).2, ?_, ?_⟩
      · rw [← hae]
        exact h1
      · rw [← hae]
        exact h2

/-- Claim C7, witness: the placeholder-exclusion conjunct applied to a row
with `"-", "-"` scores in a two-row table. -/
theorem claim_C7_witness :
    parseRoundRow ("2".data :: "-".data :: "-".data :: []) = none :=
  (claim_C7_rounds [["1".data, "10".data, "9".data],
    ["2".data, "-".data, "-".data]]).1 "2".data "-".data "-".data [] (by decide)
    (Or.inl rfl)

/-- Fetch oracle for the scorecard-count witness: a page with one judge
table. -/
def fetchSmall : List Char → Option FightPage := fun u =>
  if u = "c".data then some ⟨[], [⟨none, [], none⟩]⟩ else none

/-- Claim C8: a fight page with fewer than 3 judge tables parses to the
failure sentinel `None`; an event's fight list contains only successfully
parsed records; and every emitted fight carries at most 3 judge scorecards
(built from the first three tables only). -/
theorem claim_C8_drop (uni : List Char → List Char)
    (fetch : List Char → Option FightPage) :
    (∀ url page, fetch url = some page → page.judgesTables.length < 3 →
      asyncParseFight uni fetch url = none) ∧
    (∀ links f, f ∈ asyncEventFights uni fetch links →
      ∃ url ∈ links, asyncParseFight uni fetch url = some f) ∧
    (∀ url f, asyncParseFight uni fetch url = some f → f.judges.length ≤ 3) := by
  refine ⟨?_, ?_, ?_⟩
  · intro url page hf hlen
    unfold asyncParseFight
    rw [hf]
    simp [hlen]
  · intro links f hf
    unfold asyncEventFights at hf
    obtain ⟨a, ha, hid⟩ := List.mem_filterMap.mp hf
    obtain ⟨url, hmem, rfl⟩ := List.mem_map.mp ha
    exact ⟨url, hmem, hid⟩
  · intro url f hf
    unfold asyncParseFight at hf
    rcases hfe : fetch url with _ | page <;> rw [hfe] at hf
    · cases hf
    dsimp only at hf
    by_cases hlen : page.judgesTables.length < 3
    · rw [if_pos hlen] at hf
      cases hf
    · rw [if_neg hlen] at hf
      have hj : f.judges =
          ((page.judgesTables.take 3).enum.map
            (fun p => parseJudgeTable uni (p.1 + 1) p.2)).filterMap id := by
        cases hf
        rfl
      rw [hj]
      refine le_trans (List.length_filterMap_le _ _) ?_
      rw [List.length_map, List.enum_length, List.length_take]
      exact min_le_left _ _

/-- Claim C8, witness: the sentinel conjunct applied to a page with a single
judge table. -/
theorem claim_C8_witness : asyncParseFight id fetchSmall "c".data = none :=
  (claim_C8_drop id fetchSmall).1 "c".data ⟨[], [⟨none, [], none⟩]⟩ (by decide)
    (by decide)

/-- Claim C10: the `"---"` placeholder is rewritten to `"0"` and then parsed
by the integer branch, so the normalizer returns the integer 0 — not null and
not the original text. -/
theorem claim_C10_dashes (pf : List Char → Option ℚ) :
    processStatValue pf "---".data = StatValue.intVal 0 ∧
    StatValue.intVal 0 ≠ StatValue.noneVal ∧
    StatValue.intVal 0 ≠ StatValue.strVal "---".data := by
  exact ⟨rfl, by decide, by decide⟩

end OddsMate
